import Mathlib

/-!
Verification of the scheduling/orchestration subsystem of the test runner
(playwright-test): the dependency phase builder `buildPhases`, the
`createRunTestsTask` phase-execution loop, the `createLoadTask` empty-suite
check, the `TestLoader` file cache, and the `Multiplexer` reporter fan-out.

Projects are modelled by their index in the `projectSuites` array handed to
`buildPhases`; `deps : Nat → List Nat` gives, for each project index, the
indices of its `_deps`. Test groups are lists of test ids, `groups i` being
the groups `createTestGroups` produced for project `i` (opaque input per the
spec). The dispatcher is an external collaborator; its observable answers
are supplied as oracles (`okO i` = project `i`'s suite ended with all tests
ok, `errO k` = the phase-`k` dispatcher reported `hasWorkerErrors()` after
its `run`).
-/

/-- Eligibility test from `buildPhases`: project `i` is added to the current
phase when it is not processed yet and has no unprocessed dependency
(`projectSuite._projectConfig!._deps.find(p => !processed.has(p))` found
nothing). -/
def eligible (deps : Nat → List Nat) (processed : List Nat) (i : Nat) : Prop :=
  i ∉ processed ∧ ∀ d ∈ deps i, d ∈ processed

instance (deps : Nat → List Nat) (processed : List Nat) (i : Nat) :
    Decidable (eligible deps processed i) := by
  unfold eligible; infer_instance

/-- Loop body of `buildPhases`: the source runs `projectSuites.length`
passes (`for (let i = 0; i < projectSuites.length; i++)`); each pass scans
all projects in input order, collects the eligible ones into a phase, marks
them processed, and pushes the phase only when it is non-empty. -/
def buildPhasesAux (n : Nat) (deps : Nat → List Nat) :
    Nat → List Nat → List (List Nat)
  | 0, _ => []
  | fuel + 1, processed =>
    let phase := (List.range n).filter (fun i => decide (eligible deps processed i))
    let rest := buildPhasesAux n deps fuel (processed ++ phase)
    if phase = [] then rest else phase :: rest

/-- Shallow embedding of `buildPhases` (vitePlugin.ts excerpt, lines
692-710), with project `i` standing for `projectSuites[i]`. -/
def buildPhases (n : Nat) (deps : Nat → List Nat) : List (List Nat) :=
  buildPhasesAux n deps n []

/-- A nonempty set of projects in which every member has a dependency inside
the set: the standard finite-graph characterisation of "the dependency
relation contains a cycle". -/
def hasCycleWitness (n : Nat) (deps : Nat → List Nat) (C : List Nat) : Prop :=
  C ≠ [] ∧ (∀ v ∈ C, v < n) ∧ ∀ v ∈ C, ∃ w ∈ deps v, w ∈ C

instance (n : Nat) (deps : Nat → List Nat) (C : List Nat) :
    Decidable (hasCycleWitness n deps C) := by
  unfold hasCycleWitness; infer_instance

/-- Modelled from the spec: the circular-dependency validation. The test
suite shows the runner reports `Circular dependency detected between
projects.` on cyclic configurations, but the code producing that error is
project-configuration resolution, which is not part of the sources here;
only `buildPhases` (which silently leaves cyclic projects unassigned) and
the test exercising the message are. Following spec §4.1 ("if projects
remain unassigned after a pass makes no progress, this signals a dependency
cycle; the scheduler must fail fast with a distinguishable 'circular
dependency' error, naming at least one cycle participant, and must not
attempt partial execution"), the checked builder fails, naming the
unassigned projects, whenever the pass-based assignment left projects over. -/
def buildPhasesChecked (n : Nat) (deps : Nat → List Nat) :
    Except (String × List Nat) (List (List Nat)) :=
  let phases := buildPhases n deps
  let unassigned := (List.range n).filter (fun i => decide (∀ ph ∈ phases, i ∉ ph))
  if unassigned = [] then .ok phases
  else .error ("Circular dependency detected between projects.", unassigned)

/-- Failed-dependency test from `createRunTestsTask`:
`project._deps.some(p => !successfulProjects.has(p))`. -/
def hasFailedDeps (deps : Nat → List Nat) (succ : List Nat) (i : Nat) : Prop :=
  ∃ d ∈ deps i, d ∉ succ

instance (deps : Nat → List Nat) (succ : List Nat) (i : Nat) :
    Decidable (hasFailedDeps deps succ i) := by
  unfold hasFailedDeps; infer_instance

/-- First loop of a phase iteration in `createRunTestsTask`: the test groups
of the projects without failed dependencies, in project order, collected
into `phaseTestGroups`. Each group is tagged with its project index. -/
def phaseDispatch (deps : Nat → List Nat) (groups : Nat → List (List Nat))
    (succ : List Nat) (phase : List Nat) : List (Nat × List Nat) :=
  phase.flatMap fun i =>
    if hasFailedDeps deps succ i then []
    else (groups i).map fun g => (i, g)

/-- First loop of a phase iteration, skip branch: for a project with failed
dependencies, every test of every one of its test groups gets a result with
status `skipped` appended (`test._appendTestResult().status = 'skipped'`).
Recorded as (project, test) pairs. -/
def phaseSkipped (deps : Nat → List Nat) (groups : Nat → List (List Nat))
    (succ : List Nat) (phase : List Nat) : List (Nat × Nat) :=
  phase.flatMap fun i =>
    if hasFailedDeps deps succ i then (groups i).flatMap fun g => g.map fun t => (i, t)
    else []

/-- Second loop of a phase iteration: a project joins `successfulProjects`
when it has no failed dependency and none of its suite's tests is not-ok
(`okO i` answers `!projectSuite.allTests().some(test => !test.ok())`, an
external question to the test model). The JS `Set` grows while the loop
iterates, which this left fold reproduces. -/
def phaseSuccessLoop (deps : Nat → List Nat) (okO : Nat → Bool)
    (phase : List Nat) (succ : List Nat) : List Nat :=
  phase.foldl
    (fun s i => if ¬ hasFailedDeps deps s i ∧ okO i = true then s ++ [i] else s) succ

/-- Observable record of one phase iteration of `createRunTestsTask`. -/
structure PhaseLog where
  dispatched : List (Nat × List Nat)
  skipped : List (Nat × Nat)
  ran : Bool
  workerErrors : Bool
  succAfter : List Nat
deriving Repr, DecidableEq, Inhabited

/-- One iteration of the `for (const { dispatcher, projects } of phases)`
loop: build `phaseTestGroups` and the skip records, invoke
`dispatcher.run`/`stop` only when the batch is non-empty
(`if (phaseTestGroups.length)`), query `hasWorkerErrors()` (a dispatcher
that never ran has none; `errO k` answers for the phase-`k` dispatcher
after a run), then run the success-recording loop unless the worker broke. -/
def runPhaseStep (deps : Nat → List Nat) (groups : Nat → List (List Nat))
    (okO : Nat → Bool) (errO : Nat → Bool) (k : Nat) (succ : List Nat)
    (phase : List Nat) : PhaseLog :=
  let disp := phaseDispatch deps groups succ phase
  let skip := phaseSkipped deps groups succ phase
  let ran := decide (disp ≠ [])
  let werr := ran && errO k
  let succ2 := if werr = true then succ else phaseSuccessLoop deps okO phase succ
  ⟨disp, skip, ran, werr, succ2⟩

/-- The phase loop of `createRunTestsTask`, threading the
`successfulProjects` set (initially empty) through the phases; `k` is the
index of the current phase. The source loop never breaks: every phase is
iterated even after worker errors. -/
def runPhasesFrom (deps : Nat → List Nat) (groups : Nat → List (List Nat))
    (okO : Nat → Bool) (errO : Nat → Bool) :
    Nat → List Nat → List (List Nat) → List PhaseLog
  | _, _, [] => []
  | k, succ, ph :: rest =>
    let log := runPhaseStep deps groups okO errO k succ ph
    log :: runPhasesFrom deps groups okO errO (k + 1) log.succAfter rest

/-- Shallow embedding of the task returned by `createRunTestsTask`
(vitePlugin.ts excerpt, lines 652-690), composed with `buildPhases` the way
`createTestGroupsTask` feeds it (`context.phases` is built from
`buildPhases(rootSuite.suites)`, each project carrying the groups
`createTestGroups` produced for it). -/
def createRunTestsTask (n : Nat) (deps : Nat → List Nat)
    (groups : Nat → List (List Nat)) (okO : Nat → Bool) (errO : Nat → Bool) :
    List PhaseLog :=
  runPhasesFrom deps groups okO errO 0 [] (buildPhases n deps)

/-- The `successfulProjects` set as the phase-`k` iteration reads it: empty
before the first phase, otherwise the set left by the previous iteration.
`s0` is the initial set (empty in `createRunTestsTask`). -/
def succBefore (s0 : List Nat) (logs : List PhaseLog) : Nat → List Nat
  | 0 => s0
  | k + 1 => (logs.getD k default).succAfter

/-- Modelled from the spec, continuing `buildPhasesChecked`: under the
fail-fast contract a cyclic configuration yields the error and the phase
loop is never entered, so no partial execution is attempted. -/
def runPipelineChecked (n : Nat) (deps : Nat → List Nat)
    (groups : Nat → List (List Nat)) (okO : Nat → Bool) (errO : Nat → Bool) :
    Except (String × List Nat) (List PhaseLog) :=
  (buildPhasesChecked n deps).map (runPhasesFrom deps groups okO errO 0 [])

/-- Shallow embedding of the empty-suite check in `createLoadTask`
(vitePlugin.ts excerpt, lines 614-622): after the external `loadAllTests`
produced the root suite, the task throws `No tests found` iff the suite has
no tests, `passWithNoTests` is not set and the run is not sharded.
`numTests` is `context.rootSuite.allTests().length`; `shard` is whether
`config.shard` is set. -/
def createLoadTask (numTests : Nat) (passWithNoTests shard : Bool) :
    Except String Unit :=
  if numTests == 0 && !passWithNoTests && !shard then .error "No tests found"
  else .ok ()

/-- File suite produced by `TestLoader.loadTestFile`: the file it was
created for and the tests the file's execution registered on it. -/
structure FileSuite where
  file : Nat
  tests : List Nat
deriving Repr, DecidableEq, Inhabited

/-- Loading environment of `TestLoader.loadTestFile`. -/
inductive LoadEnv
  | loader
  | worker
deriving Repr, DecidableEq

/-- Result of one `loadTestFile` call: the global `cachedFileSuites` map
(modelled as an association list, newest entry first), the `loadErrors`
sink, whether `requireOrImport` actually executed the file, and the
returned suite. -/
structure LoadOutcome where
  cache : List (Nat × FileSuite)
  loadErrors : List String
  executed : Bool
  suite : FileSuite
deriving Repr, DecidableEq

/-- Shallow embedding of `TestLoader.loadTestFile`. `req f` models the
external `requireOrImport(file)`: the tests the file registers on the
currently-loading suite before it possibly throws, and the error it throws,
if any (`serializeError` is kept abstract; the raw error string is what
gets recorded). A cache hit returns the cached suite without executing the
file. On success the suite is cached; on a throw nothing is cached and the
error is recorded in `loadErrors` in the loader environment but rethrown in
the worker environment. The source-map location fix-up at the end of the
source function only rewrites `suite.location` and is omitted from the
model. -/
def loadTestFile (req : Nat → List Nat × Option String) (env : LoadEnv)
    (cache : List (Nat × FileSuite)) (loadErrors : List String) (f : Nat) :
    Except String LoadOutcome :=
  match cache.lookup f with
  | some suite => .ok ⟨cache, loadErrors, false, suite⟩
  | none =>
    let suite : FileSuite := ⟨f, (req f).1⟩
    match (req f).2 with
    | none => .ok ⟨(f, suite) :: cache, loadErrors, true, suite⟩
    | some e =>
      match env with
      | .worker => .error e
      | .loader => .ok ⟨cache, loadErrors ++ [e], true, suite⟩

/-- Loop of `loadTestFilesInProcess`: loads each file in the loader
environment and appends each returned file suite to the root suite. -/
def loadFilesAux (req : Nat → List Nat × Option String) :
    List Nat → List (Nat × FileSuite) → List String → List FileSuite →
    Except String (List (Nat × FileSuite) × List String × List FileSuite)
  | [], cache, errs, acc => .ok (cache, errs, acc)
  | f :: rest, cache, errs, acc =>
    match loadTestFile req .loader cache errs f with
    | .error e => .error e
    | .ok o => loadFilesAux req rest o.cache o.loadErrors (acc ++ [o.suite])

/-- Shallow embedding of `loadTestFilesInProcess`: builds a root suite by
loading every listed file through one `TestLoader` in the `loader`
environment (the `PoolBuilder.buildForLoader` hash generation is external
and does not touch the suites' membership). `cache` is the process-global
`cachedFileSuites` as it stands when the call starts. -/
def loadTestFilesInProcess (req : Nat → List Nat × Option String)
    (cache : List (Nat × FileSuite)) (files : List Nat) :
    Except String (List (Nat × FileSuite) × List String × List FileSuite) :=
  loadFilesAux req files cache [] []

/-- Events a registered reporter can observe from the `Multiplexer` (event
model used for the begin/end/error ordering claims; each listed event is
delivered to every registered reporter in registration order). -/
inductive RepEvent
  | begin
  | error (e : String)
  | stdout (c : String)
  | stderr (c : String)
  | done
deriving Repr, DecidableEq

/-- Deferral state of the `Multiplexer`: `_deferredErrors` and
`_deferredStdIO` start as empty buffers and are set to `null` (`none`) when
`onBegin` flushes them. Reporter callbacks are assumed not to throw in this
event model (throw handling is modelled separately, per notification). -/
structure MuxState where
  deferredErrors : Option (List String)
  deferredStdIO : Option (List (Bool × String))
deriving Repr, DecidableEq

/-- Multiplexer.onError: while `_deferredErrors` is live the error is
buffered and nothing reaches the reporters; afterwards it is delivered. -/
def muxOnError (s : MuxState) (e : String) : MuxState × List RepEvent :=
  match s.deferredErrors with
  | some l => (⟨some (l ++ [e]), s.deferredStdIO⟩, [])
  | none => (s, [.error e])

/-- Multiplexer.onStdOut / onStdErr, collapsed into one function with the
`stdout?` flag: buffered while `_deferredStdIO` is live, delivered after. -/
def muxOnStdIO (s : MuxState) (isOut : Bool) (c : String) : MuxState × List RepEvent :=
  match s.deferredStdIO with
  | some l => (⟨s.deferredErrors, some (l ++ [(isOut, c)])⟩, [])
  | none => (s, [if isOut then .stdout c else .stderr c])

/-- Multiplexer.onBegin: delivers `onBegin` to every reporter, then nulls
`_deferredErrors` and replays the buffered errors through `onError`, then
nulls `_deferredStdIO` and replays the buffered chunks. The source reads
the buffers with `!` and is only ever called once, on a state whose buffers
are still live. -/
def muxOnBegin (s : MuxState) : MuxState × List RepEvent :=
  let errs := s.deferredErrors.getD []
  let stdio := s.deferredStdIO.getD []
  (⟨none, none⟩,
    .begin :: (errs.map RepEvent.error ++
      stdio.map fun p => if p.1 then RepEvent.stdout p.2 else RepEvent.stderr p.2))

/-- Multiplexer.onEnd is a no-op in the source (`async onEnd() { }`): the
`report begin` task's rollback calls it, and nothing reaches the
reporters. -/
def muxOnEnd (s : MuxState) : MuxState × List RepEvent :=
  (s, [])

/-- Multiplexer.onExit: if `_deferredErrors` is still live, `onBegin` was
never reported, so it is synthesized here; then every reporter receives
`onEnd` (the `.done` event) exactly once. -/
def muxOnExit (s : MuxState) : MuxState × List RepEvent :=
  let p := if s.deferredErrors.isSome then muxOnBegin s else (s, [])
  (p.1, p.2 ++ [.done])

/-- Folds a list of `onError` calls through the multiplexer state. -/
def muxErrorSeq (s : MuxState) (errs : List String) : MuxState × List RepEvent :=
  errs.foldl
    (fun acc e =>
      let r := muxOnError acc.1 e
      (r.1, acc.2 ++ r.2))
    (s, [])

/-- One run of the reporting pipeline as `createTaskRunner` wires it:
`errsBefore` are `onError` calls arriving before the `report begin` task
(e.g. from a failing load step), `beginReached` tells whether the pipeline
reached `report begin` (which calls `reporter.onBegin` and registers
`() => reporter.onEnd()` as rollback), `errsAfter` are later `onError`
calls; the rollback runs during unwinding and the runner finally calls
`onExit`. Returns the full event sequence each reporter observes. -/
def reporterRun (errsBefore : List String) (beginReached : Bool)
    (errsAfter : List String) : List RepEvent :=
  let s0 : MuxState := ⟨some [], some []⟩
  let a := muxErrorSeq s0 errsBefore
  let b := if beginReached then
      let r := muxOnBegin a.1
      (r.1, a.2 ++ r.2)
    else a
  let c := muxErrorSeq b.1 errsAfter
  let c2 := (c.1, b.2 ++ c.2)
  let d := if beginReached then
      let r := muxOnEnd c2.1
      (r.1, c2.2 ++ r.2)
    else c2
  let e := muxOnExit d.1
  d.2 ++ e.2

/-- Per-notification delivery model for the `Multiplexer` fan-out loops:
each registered reporter's callback either returns or throws
(`cbs.get i = .error e` models reporter `i` throwing `e` for the current
notification). -/
structure NotifyLog where
  delivered : List Nat
  logged : List String
  thrown : Option String
deriving Repr, DecidableEq

/-- The `wrap` helper (vitePlugin.ts excerpt, lines 463-469): runs the
callback, catches any exception and logs it (`console.error`), never
rethrows. Returns the logged errors of the one call. -/
def wrap (cb : Except String Unit) : List String :=
  match cb with
  | .ok _ => []
  | .error e => [e]

/-- A `for (const reporter of this._reporters) wrap(() => ...)` loop:
every reporter is invoked, throwers are logged, nothing propagates. -/
def broadcastWrappedAux : Nat → List (Except String Unit) → NotifyLog
  | _, [] => ⟨[], [], none⟩
  | k, cb :: rest =>
    let r := broadcastWrappedAux (k + 1) rest
    ⟨k :: r.delivered, wrap cb ++ r.logged, none⟩

def broadcastWrapped (cbs : List (Except String Unit)) : NotifyLog :=
  broadcastWrappedAux 0 cbs

/-- An unwrapped fan-out loop (as in `onStepEnd`): in JS an exception in
iteration `k` aborts the loop and propagates to the caller. -/
def broadcastPlainAux : Nat → List (Except String Unit) → NotifyLog
  | _, [] => ⟨[], [], none⟩
  | k, cb :: rest =>
    match cb with
    | .ok _ =>
      let r := broadcastPlainAux (k + 1) rest
      ⟨k :: r.delivered, r.logged, r.thrown⟩
    | .error e => ⟨[k], [], some e⟩

def broadcastPlain (cbs : List (Except String Unit)) : NotifyLog :=
  broadcastPlainAux 0 cbs

/-- Multiplexer.onTestBegin: wrapped fan-out over the reporters. -/
def Multiplexer.onTestBegin (cbs : List (Except String Unit)) : NotifyLog :=
  broadcastWrapped cbs

/-- Multiplexer.onTestEnd: wrapped fan-out over the reporters. -/
def Multiplexer.onTestEnd (cbs : List (Except String Unit)) : NotifyLog :=
  broadcastWrapped cbs

/-- Multiplexer.onStepBegin: wrapped fan-out over the reporters. -/
def Multiplexer.onStepBegin (cbs : List (Except String Unit)) : NotifyLog :=
  broadcastWrapped cbs

/-- Multiplexer.onStdOut: buffered while `_deferredStdIO` is live,
otherwise a wrapped fan-out. -/
def Multiplexer.onStdOut (deferred : Bool) (cbs : List (Except String Unit)) : NotifyLog :=
  if deferred then ⟨[], [], none⟩ else broadcastWrapped cbs

/-- Multiplexer.onStdErr: buffered while `_deferredStdIO` is live,
otherwise a wrapped fan-out. -/
def Multiplexer.onStdErr (deferred : Bool) (cbs : List (Except String Unit)) : NotifyLog :=
  if deferred then ⟨[], [], none⟩ else broadcastWrapped cbs

/-- Multiplexer.onError: buffered while `_deferredErrors` is live,
otherwise a wrapped fan-out. -/
def Multiplexer.onError (deferred : Bool) (cbs : List (Except String Unit)) : NotifyLog :=
  if deferred then ⟨[], [], none⟩ else broadcastWrapped cbs

/-- Multiplexer.onStepEnd: the one fan-out loop the source does not wrap. -/
def Multiplexer.onStepEnd (cbs : List (Except String Unit)) : NotifyLog :=
  broadcastPlain cbs

/-- The errors the reporters' callbacks throw for one notification, in
registration order. -/
def reporterErrors (cbs : List (Except String Unit)) : List String :=
  cbs.filterMap fun cb =>
    match cb with
    | .ok _ => none
    | .error e => some e

/-- Example configuration: three projects, `B` and `C` depending on `A`
(indices 1 and 2 depending on 0). -/
def exDeps3 : Nat → List Nat := fun i =>
  match i with
  | 1 => [0]
  | 2 => [0]
  | _ => []

/-- Example test groups for the three-project configuration. -/
def exGroups3 : Nat → List (List Nat) := fun i =>
  match i with
  | 0 => [[10]]
  | 1 => [[11]]
  | 2 => [[12]]
  | _ => []

/-- Example cyclic configuration: two projects depending on each other. -/
def exDepsCyc : Nat → List Nat := fun i =>
  match i with
  | 0 => [1]
  | 1 => [0]
  | _ => []

/-! Basic structural lemmas about `buildPhasesAux`. -/

theorem buildPhasesAux_mem_phase {n : Nat} {deps : Nat → List Nat} :
    ∀ {fuel : Nat} {p : List Nat} {ph : List Nat},
      ph ∈ buildPhasesAux n deps fuel p →
      ∃ q, ph = (List.range n).filter (fun i => decide (eligible deps q i)) := by
  intro fuel
  induction fuel with
  | zero => intro p ph h; simp [buildPhasesAux] at h
  | succ fuel ih =>
    intro p ph h
    simp only [buildPhasesAux] at h
    by_cases hc : (List.range n).filter (fun i => decide (eligible deps p i)) = []
    · rw [if_pos hc] at h
      exact ih h
    · rw [if_neg hc, List.mem_cons] at h
      rcases h with h | h
      · exact ⟨p, h⟩
      · exact ih h

theorem phase_nodup {n : Nat} {deps : Nat → List Nat} {fuel : Nat}
    {p ph : List Nat} (h : ph ∈ buildPhasesAux n deps fuel p) : ph.Nodup := by
  obtain ⟨q, rfl⟩ := buildPhasesAux_mem_phase h
  exact (List.nodup_range n).filter _

theorem phase_sorted {n : Nat} {deps : Nat → List Nat} {fuel : Nat}
    {p ph : List Nat} (h : ph ∈ buildPhasesAux n deps fuel p) :
    List.Pairwise (· < ·) ph := by
  obtain ⟨q, rfl⟩ := buildPhasesAux_mem_phase h
  exact (List.pairwise_lt_range n).sublist (List.filter_sublist _)

theorem phase_subset_range {n : Nat} {deps : Nat → List Nat} {fuel : Nat}
    {p ph : List Nat} (h : ph ∈ buildPhasesAux n deps fuel p) :
    ∀ i ∈ ph, i < n := by
  obtain ⟨q, rfl⟩ := buildPhasesAux_mem_phase h
  intro i hi
  exact List.mem_range.mp (List.mem_filter.mp hi).1

/-- Eligibility invariant: a project sitting in the `k`-th produced phase
passed the eligibility filter against the processed set accumulated from
the initial set and all earlier phases. -/
theorem buildPhasesAux_eligible {n : Nat} {deps : Nat → List Nat} :
    ∀ {fuel : Nat} {p : List Nat} {k : Nat} {i : Nat},
      i ∈ (buildPhasesAux n deps fuel p).getD k [] →
      eligible deps (p ++ ((buildPhasesAux n deps fuel p).take k).flatten) i := by
  intro fuel
  induction fuel with
  | zero => intro p k i h; simp [buildPhasesAux] at h
  | succ fuel ih =>
    intro p k i h
    simp only [buildPhasesAux] at h ⊢
    by_cases hc : (List.range n).filter (fun i => decide (eligible deps p i)) = []
    · rw [if_pos hc] at h ⊢
      rw [hc, List.append_nil] at h ⊢
      exact ih h
    · rw [if_neg hc] at h ⊢
      match k with
      | 0 =>
        rw [List.getD_cons_zero] at h
        have := (List.mem_filter.mp h).2
        rw [List.take_zero, List.flatten_nil, List.append_nil]
        exact of_decide_eq_true this
      | k + 1 =>
        rw [List.getD_cons_succ] at h
        have := ih h
        simpa [List.take_succ_cons, List.flatten_cons, List.append_assoc] using this

/-- Once a pass makes no progress (empty eligible set), every later pass is
also empty, so the builder produces no further phases. -/
theorem buildPhasesAux_stuck {n : Nat} {deps : Nat → List Nat} :
    ∀ {fuel : Nat} {p : List Nat},
      (List.range n).filter (fun i => decide (eligible deps p i)) = [] →
      buildPhasesAux n deps fuel p = [] := by
  intro fuel
  induction fuel with
  | zero => intro p _; rfl
  | succ fuel ih =>
    intro p hp
    simp only [buildPhasesAux, hp, if_true, List.append_nil]
    exact ih hp

/-- Membership in the first produced phase means eligibility against the
initial processed set (empty passes never precede a produced phase). -/
theorem buildPhasesAux_head {n : Nat} {deps : Nat → List Nat} :
    ∀ {fuel : Nat} {p : List Nat} {i : Nat},
      i ∈ (buildPhasesAux n deps fuel p).getD 0 [] →
      i ∈ (List.range n).filter (fun j => decide (eligible deps p j)) := by
  intro fuel
  induction fuel with
  | zero => intro p i h; simp [buildPhasesAux] at h
  | succ fuel ih =>
    intro p i h
    simp only [buildPhasesAux] at h
    by_cases hc : (List.range n).filter (fun i => decide (eligible deps p i)) = []
    · rw [if_pos hc] at h
      rw [hc, List.append_nil] at h
      rw [buildPhasesAux_stuck hc] at h
      simp at h
    · rw [if_neg hc] at h
      rw [List.getD_cons_zero] at h
      exact h

/-! Helper lemmas relating indexed phase access and flattened prefixes. -/

theorem mem_getD_mem_take_flatten {l : List (List Nat)} {j k : Nat} {x : Nat}
    (hjk : j < k) (hx : x ∈ l.getD j []) : x ∈ (l.take k).flatten := by
  induction l generalizing j k with
  | nil => simp [List.getD] at hx
  | cons a t ih =>
    match k, hjk with
    | k + 1, hjk' =>
      rw [List.take_succ_cons, List.flatten_cons, List.mem_append]
      match j, hjk' with
      | 0, _ => rw [List.getD_cons_zero] at hx; exact Or.inl hx
      | j + 1, hjk'' =>
        rw [List.getD_cons_succ] at hx
        exact Or.inr (ih (Nat.lt_of_succ_lt_succ hjk'') hx)

theorem mem_take_flatten_mem_getD {l : List (List Nat)} {k : Nat} {x : Nat}
    (hx : x ∈ (l.take k).flatten) : ∃ j < k, x ∈ l.getD j [] := by
  induction l generalizing k with
  | nil => simp at hx
  | cons a t ih =>
    match k with
    | 0 => simp at hx
    | k + 1 =>
      rw [List.take_succ_cons, List.flatten_cons, List.mem_append] at hx
      rcases hx with hx | hx
      · exact ⟨0, Nat.succ_pos k, by rw [List.getD_cons_zero]; exact hx⟩
      · obtain ⟨j, hj, hm⟩ := ih hx
        exact ⟨j + 1, Nat.succ_lt_succ hj, by rw [List.getD_cons_succ]; exact hm⟩

/-- Dependencies of a project in phase `k` all lie in earlier phases. -/
theorem buildPhases_deps_earlier {n : Nat} {deps : Nat → List Nat} {k i : Nat}
    (h : i ∈ (buildPhases n deps).getD k []) :
    ∀ d ∈ deps i, ∃ j < k, d ∈ (buildPhases n deps).getD j [] := by
  intro d hd
  have he := @buildPhasesAux_eligible n deps n [] k i h
  rw [List.nil_append] at he
  exact mem_take_flatten_mem_getD (he.2 d hd)

/-- A project in phase `k` does not occur in any other phase (the `processed`
set guard): distinct phases are disjoint. -/
theorem buildPhases_disjoint {n : Nat} {deps : Nat → List Nat} {j k i : Nat}
    (hjk : j < k) (hj : i ∈ (buildPhases n deps).getD j [])
    (hk : i ∈ (buildPhases n deps).getD k []) : False := by
  have he := @buildPhasesAux_eligible n deps n [] k i hk
  rw [List.nil_append] at he
  exact he.1 (mem_getD_mem_take_flatten hjk hj)

/-- Earliest-phase property: a project assigned to phase `k + 1` has at least
one dependency assigned exactly to phase `k` (otherwise the project would
already have been eligible one pass earlier). -/
theorem buildPhasesAux_chain {n : Nat} {deps : Nat → List Nat} :
    ∀ {fuel : Nat} {p : List Nat} {k i : Nat},
      i ∈ (buildPhasesAux n deps fuel p).getD (k + 1) [] →
      ∃ d ∈ deps i, d ∈ (buildPhasesAux n deps fuel p).getD k [] := by
  intro fuel
  induction fuel with
  | zero => intro p k i h; simp [buildPhasesAux] at h
  | succ fuel ih =>
    intro p k i h
    simp only [buildPhasesAux] at h ⊢
    by_cases hc : (List.range n).filter (fun i => decide (eligible deps p i)) = []
    · rw [if_pos hc] at h ⊢
      rw [hc, List.append_nil] at h ⊢
      exact ih h
    · rw [if_neg hc] at h ⊢
      match k with
      | 0 =>
        rw [List.getD_cons_succ] at h
        rw [List.getD_cons_zero]
        have hhead := buildPhasesAux_head h
        have helig := of_decide_eq_true (List.mem_filter.mp hhead).2
        have hin : i ∈ List.range n := (List.mem_filter.mp hhead).1
        by_contra hno
        push_neg at hno
        have : eligible deps p i := by
          constructor
          · intro hip
            exact helig.1 (List.mem_append.mpr (Or.inl hip))
          · intro d hd
            have := helig.2 d hd
            rcases List.mem_append.mp this with h1 | h1
            · exact h1
            · exact absurd h1 (hno d hd)
        have : i ∈ (List.range n).filter (fun i => decide (eligible deps p i)) :=
          List.mem_filter.mpr ⟨hin, decide_eq_true this⟩
        exact helig.1 (List.mem_append.mpr (Or.inr this))
      | k + 1 =>
        rw [List.getD_cons_succ] at h
        rw [List.getD_cons_succ]
        exact ih h

/-- Progress: as long as unassigned projects remain and the dependency graph
admits a rank function (is acyclic), each pass assigns at least one project,
so with `n` passes every project ends up in some phase. -/
theorem buildPhasesAux_covers {n : Nat} {deps : Nat → List Nat} {rank : Nat → Nat}
    (hval : ∀ i < n, ∀ d ∈ deps i, d < n)
    (hrank : ∀ i < n, ∀ d ∈ deps i, rank d < rank i) :
    ∀ {fuel : Nat} {p : List Nat},
      ((List.range n).filter (fun i => decide (i ∉ p))).length ≤ fuel →
      ∀ x < n, x ∈ p ∨ x ∈ (buildPhasesAux n deps fuel p).flatten := by
  intro fuel
  induction fuel with
  | zero =>
    intro p hcard x hx
    rw [Nat.le_zero, List.length_eq_zero] at hcard
    left
    by_contra hxp
    have : x ∈ (List.range n).filter (fun i => decide (i ∉ p)) :=
      List.mem_filter.mpr ⟨List.mem_range.mpr hx, decide_eq_true hxp⟩
    rw [hcard] at this
    exact (List.not_mem_nil x) this
  | succ fuel ih =>
    intro p hcard x hx
    by_cases hrem : (List.range n).filter (fun i => decide (i ∉ p)) = []
    · left
      by_contra hxp
      have : x ∈ (List.range n).filter (fun i => decide (i ∉ p)) :=
        List.mem_filter.mpr ⟨List.mem_range.mpr hx, decide_eq_true hxp⟩
      rw [hrem] at this
      exact (List.not_mem_nil x) this
    · obtain ⟨x0, hx0⟩ : ∃ x0, ((List.range n).filter (fun i => decide (i ∉ p))).argmin rank = some x0 := by
        cases ha : ((List.range n).filter (fun i => decide (i ∉ p))).argmin rank with
        | some y => exact ⟨y, rfl⟩
        | none => exact absurd (List.argmin_eq_none.mp ha) hrem
      have hx0mem := List.argmin_mem hx0
      have hx0n : x0 < n := List.mem_range.mp (List.mem_filter.mp hx0mem).1
      have hx0p : x0 ∉ p := of_decide_eq_true (List.mem_filter.mp hx0mem).2
      have hx0elig : eligible deps p x0 := by
        refine ⟨hx0p, fun d hd => ?_⟩
        by_contra hdp
        have hdn : d < n := hval x0 hx0n d hd
        have hdrem : d ∈ (List.range n).filter (fun i => decide (i ∉ p)) :=
          List.mem_filter.mpr ⟨List.mem_range.mpr hdn, decide_eq_true hdp⟩
        have := List.le_of_mem_argmin hdrem hx0
        exact absurd (hrank x0 hx0n d hd) (Nat.not_lt.mpr this)
      have hphase : x0 ∈ (List.range n).filter (fun i => decide (eligible deps p i)) :=
        List.mem_filter.mpr ⟨List.mem_range.mpr hx0n, decide_eq_true hx0elig⟩
      have hpne : (List.range n).filter (fun i => decide (eligible deps p i)) ≠ [] :=
        List.ne_nil_of_mem hphase
      simp only [buildPhasesAux, if_neg hpne]
      set phase := (List.range n).filter (fun i => decide (eligible deps p i)) with hphasedef
      have hcard' : ((List.range n).filter (fun i => decide (i ∉ p ++ phase))).length ≤ fuel := by
        have heq : (List.range n).filter (fun i => decide (i ∉ p ++ phase)) =
            ((List.range n).filter (fun i => decide (i ∉ p))).filter
              (fun i => decide (i ∉ phase)) := by
          rw [List.filter_filter]
          apply List.filter_congr
          intro i _
          by_cases h1 : i ∈ p <;> by_cases h2 : i ∈ phase <;>
            simp [List.mem_append, h1, h2]
        rw [heq]
        have hlt : (((List.range n).filter (fun i => decide (i ∉ p))).filter
            (fun i => decide (i ∉ phase))).length <
            ((List.range n).filter (fun i => decide (i ∉ p))).length := by
          apply List.length_filter_lt_length_iff_exists.mpr
          exact ⟨x0, hx0mem, by simp [hphase]⟩
        omega
      have := ih hcard' x hx
      rcases this with hxe | hxe
      · rcases List.mem_append.mp hxe with h1 | h1
        · exact Or.inl h1
        · right
          rw [List.flatten_cons, List.mem_append]
          exact Or.inl h1
      · right
        rw [List.flatten_cons, List.mem_append]
        exact Or.inr hxe

/-- Projects assigned by `buildPhases` are exactly the input indices when
the graph is acyclic (admits a rank function decreasing along
dependencies). -/
theorem buildPhases_covers {n : Nat} {deps : Nat → List Nat} {rank : Nat → Nat}
    (hval : ∀ i < n, ∀ d ∈ deps i, d < n)
    (hrank : ∀ i < n, ∀ d ∈ deps i, rank d < rank i) :
    ∀ x < n, x ∈ (buildPhases n deps).flatten := by
  intro x hx
  have hfilter : (List.range n).filter (fun i => decide (i ∉ ([] : List Nat))) = List.range n := by
    apply List.filter_eq_self.mpr
    intro a _
    exact decide_eq_true (List.not_mem_nil a)
  have hcard : ((List.range n).filter (fun i => decide (i ∉ ([] : List Nat)))).length ≤ n := by
    rw [hfilter, List.length_range]
  have := @buildPhasesAux_covers n deps rank hval hrank n [] hcard x hx
  rcases this with h | h
  · exact absurd h (List.not_mem_nil x)
  · exact h

/-- C2: for every acyclic project dependency graph (every dependency is an
input project and some rank function strictly decreases along
dependencies), `buildPhases` assigns each input project to exactly one
phase — the concatenation of the phases is a permutation of the project
list — and every dependency of a project in phase `k` sits in a phase of
strictly smaller index. -/
theorem buildPhases_partitions_and_respects_deps {n : Nat}
    {deps : Nat → List Nat} (rank : Nat → Nat)
    (hval : ∀ i < n, ∀ d ∈ deps i, d < n)
    (hrank : ∀ i < n, ∀ d ∈ deps i, rank d < rank i) :
    (buildPhases n deps).flatten.Perm (List.range n) ∧
    ∀ k i, i ∈ (buildPhases n deps).getD k [] →
      ∀ d ∈ deps i, ∃ j < k, d ∈ (buildPhases n deps).getD j [] := by
  constructor
  · have hnd : (buildPhases n deps).flatten.Nodup := by
      apply List.nodup_flatten.mpr
      constructor
      · intro ph hph
        exact phase_nodup hph
      · rw [List.pairwise_iff_getElem]
        intro a b ha hb hab
        intro x hxa hxb
        have hxa' : x ∈ (buildPhases n deps).getD a [] := by
          rw [List.getD_eq_getElem _ _ ha]; exact hxa
        have hxb' : x ∈ (buildPhases n deps).getD b [] := by
          rw [List.getD_eq_getElem _ _ hb]; exact hxb
        exact buildPhases_disjoint hab hxa' hxb'
    apply (List.perm_ext_iff_of_nodup hnd (List.nodup_range n)).mpr
    intro a
    constructor
    · intro ha
      obtain ⟨ph, hph, hmem⟩ := List.mem_flatten.mp ha
      exact List.mem_range.mpr (phase_subset_range hph a hmem)
    · intro ha
      exact buildPhases_covers hval hrank a (List.mem_range.mp ha)
  · intro k i hi d hd
    exact buildPhases_deps_earlier hi d hd

/-- Witness for C2 at the concrete three-project configuration
`A, B→[A], C→[A]` with the identity rank function. -/
theorem buildPhases_partitions_witness :
    ((∀ i < 3, ∀ d ∈ exDeps3 i, d < 3) ∧ (∀ i < 3, ∀ d ∈ exDeps3 i, d < i)) ∧
    ((buildPhases 3 exDeps3).flatten.Perm (List.range 3) ∧
      ∀ k i, i ∈ (buildPhases 3 exDeps3).getD k [] →
        ∀ d ∈ exDeps3 i, ∃ j < k, d ∈ (buildPhases 3 exDeps3).getD j []) :=
  ⟨⟨by decide, by decide⟩,
    buildPhases_partitions_and_respects_deps (fun i => i) (by decide) (by decide)⟩

/-- C8: `buildPhases` is deterministic — it is a pure function of the
ordered project/dependency configuration, so two runs on the same
configuration produce the same phase list — and inside every produced
phase the projects appear in input discovery order (strictly increasing
indices, since each pass scans `projectSuites` front to back). -/
theorem buildPhases_deterministic_and_ordered (n : Nat) (deps : Nat → List Nat) :
    buildPhases n deps = buildPhases n deps ∧
    ∀ ph ∈ buildPhases n deps, List.Pairwise (· < ·) ph :=
  ⟨rfl, fun _ hph => phase_sorted hph⟩

/-- Witness for C8: the second phase of the example configuration is
`[1, 2]`, listed in discovery order. -/
theorem buildPhases_deterministic_witness :
    [1, 2] ∈ buildPhases 3 exDeps3 ∧ List.Pairwise (· < ·) [1, 2] :=
  ⟨by decide, (buildPhases_deterministic_and_ordered 3 exDeps3).2 [1, 2] (by decide)⟩

/-- Members of a dependency cycle are never assigned to any phase: a cycle
member would need another cycle member processed strictly earlier. -/
theorem buildPhasesAux_cycle_unassigned {n : Nat} {deps : Nat → List Nat}
    {C : List Nat} (hC : ∀ v ∈ C, ∃ w ∈ deps v, w ∈ C) :
    ∀ {fuel : Nat} {p : List Nat}, (∀ v ∈ C, v ∉ p) →
      ∀ ph ∈ buildPhasesAux n deps fuel p, ∀ v ∈ C, v ∉ ph := by
  intro fuel
  induction fuel with
  | zero => intro p _ ph hph; simp [buildPhasesAux] at hph
  | succ fuel ih =>
    intro p hp ph hph
    have hCphase : ∀ v ∈ C, v ∉ (List.range n).filter
        (fun i => decide (eligible deps p i)) := by
      intro v hv hvph
      have helig := of_decide_eq_true (List.mem_filter.mp hvph).2
      obtain ⟨w, hw, hwC⟩ := hC v hv
      exact hp w hwC (helig.2 w hw)
    simp only [buildPhasesAux] at hph
    by_cases hc : (List.range n).filter (fun i => decide (eligible deps p i)) = []
    · rw [if_pos hc] at hph
      rw [hc, List.append_nil] at hph
      exact ih hp ph hph
    · rw [if_neg hc, List.mem_cons] at hph
      rcases hph with hph | hph
      · intro v hv
        rw [hph]
        exact hCphase v hv
      · refine ih ?_ ph hph
        intro v hv hvp
        rcases List.mem_append.mp hvp with h1 | h1
        · exact hp v hv h1
        · exact hCphase v hv h1

/-- C3: for every input project set whose dependency relation contains a
cycle, the checked phase builder fails with the distinguishable circular
dependency error, the error names every cycle participant (so at least
one, the cycle being nonempty), no phase list is produced, and the
checked pipeline never enters the phase loop, so no partial execution is
attempted. -/
theorem buildPhasesChecked_reports_cycle {n : Nat} {deps : Nat → List Nat}
    {C : List Nat} (hcyc : hasCycleWitness n deps C)
    (groups : Nat → List (List Nat)) (okO : Nat → Bool) (errO : Nat → Bool) :
    ∃ named : List Nat,
      buildPhasesChecked n deps =
        .error ("Circular dependency detected between projects.", named) ∧
      (∀ v ∈ C, v ∈ named) ∧
      runPipelineChecked n deps groups okO errO =
        .error ("Circular dependency detected between projects.", named) := by
  obtain ⟨hne, hlt, hC⟩ := hcyc
  have hunassigned : ∀ v ∈ C, v ∈ (List.range n).filter
      (fun i => decide (∀ ph ∈ buildPhases n deps, i ∉ ph)) := by
    intro v hv
    apply List.mem_filter.mpr
    refine ⟨List.mem_range.mpr (hlt v hv), decide_eq_true ?_⟩
    intro ph hph
    exact buildPhasesAux_cycle_unassigned hC
      (fun w _ => List.not_mem_nil w) ph hph v hv
  obtain ⟨v0, hv0⟩ := List.exists_mem_of_ne_nil C hne
  have hners : (List.range n).filter
      (fun i => decide (∀ ph ∈ buildPhases n deps, i ∉ ph)) ≠ [] :=
    List.ne_nil_of_mem (hunassigned v0 hv0)
  refine ⟨(List.range n).filter
      (fun i => decide (∀ ph ∈ buildPhases n deps, i ∉ ph)), ?_, hunassigned, ?_⟩
  · simp only [buildPhasesChecked]
    rw [if_neg hners]
  · simp only [runPipelineChecked, buildPhasesChecked]
    rw [if_neg hners]
    rfl

/-- Witness for C3 at the concrete cyclic configuration `A→[B], B→[A]`. -/
theorem buildPhasesChecked_cycle_witness :
    hasCycleWitness 2 exDepsCyc [0, 1] ∧
    ∃ named : List Nat,
      buildPhasesChecked 2 exDepsCyc =
        .error ("Circular dependency detected between projects.", named) ∧
      (∀ v ∈ [0, 1], v ∈ named) ∧
      runPipelineChecked 2 exDepsCyc (fun _ => []) (fun _ => true) (fun _ => false) =
        .error ("Circular dependency detected between projects.", named) :=
  ⟨by decide,
    buildPhasesChecked_reports_cycle (by decide) (fun _ => []) (fun _ => true)
      (fun _ => false)⟩

/-! Lemmas about the `createRunTestsTask` phase loop. -/

theorem mem_getD_lt {l : List (List Nat)} {k : Nat} {i : Nat}
    (h : i ∈ l.getD k []) : k < l.length := by
  by_contra hk
  rw [List.getD_eq_default _ _ (Nat.le_of_not_lt hk)] at h
  exact (List.not_mem_nil i) h

theorem getD_prop {logs : List PhaseLog} {m : Nat} {P : PhaseLog → Prop}
    (hall : ∀ lg ∈ logs, P lg) (hdef : P default) : P (logs.getD m default) := by
  by_cases hm : m < logs.length
  · rw [List.getD_eq_getElem _ _ hm]
    exact hall _ (logs.getElem_mem hm)
  · rw [List.getD_eq_default _ _ (Nat.le_of_not_lt hm)]
    exact hdef

section RunTask

variable {deps : Nat → List Nat} {groups : Nat → List (List Nat)} {okO errO : Nat → Bool}

theorem phaseSuccessLoop_nil {s : List Nat} :
    phaseSuccessLoop deps okO [] s = s := rfl

theorem phaseSuccessLoop_cons {j : Nat} {ph s : List Nat} :
    phaseSuccessLoop deps okO (j :: ph) s =
      phaseSuccessLoop deps okO ph
        (if ¬ hasFailedDeps deps s j ∧ okO j = true then s ++ [j] else s) := rfl

theorem phaseSuccessLoop_subset {ph : List Nat} :
    ∀ {s : List Nat} {x : Nat},
      x ∈ phaseSuccessLoop deps okO ph s → x ∈ s ∨ x ∈ ph := by
  induction ph with
  | nil => intro s x h; rw [phaseSuccessLoop_nil] at h; exact Or.inl h
  | cons j ph ih =>
    intro s x h
    rw [phaseSuccessLoop_cons] at h
    rcases ih h with h1 | h1
    · by_cases hj : ¬ hasFailedDeps deps s j ∧ okO j = true
      · rw [if_pos hj] at h1
        rcases List.mem_append.mp h1 with h2 | h2
        · exact Or.inl h2
        · right
          rw [List.mem_singleton] at h2
          rw [h2]
          exact List.mem_cons_self j ph
      · rw [if_neg hj] at h1
        exact Or.inl h1
    · exact Or.inr (List.mem_cons_of_mem j h1)

theorem phaseSuccessLoop_not_added {ph : List Nat} :
    ∀ {s : List Nat} {i : Nat}, i ∉ s →
      (∃ d ∈ deps i, d ∉ s ∧ d ∉ ph) →
      i ∉ phaseSuccessLoop deps okO ph s := by
  induction ph with
  | nil => intro s i his _; rw [phaseSuccessLoop_nil]; exact his
  | cons j ph ih =>
    intro s i his hd
    obtain ⟨d, hdd, hds, hdph⟩ := hd
    rw [phaseSuccessLoop_cons]
    by_cases hj : ¬ hasFailedDeps deps s j ∧ okO j = true
    · rw [if_pos hj]
      have hij : j ≠ i := by
        intro hji
        apply hj.1
        rw [hji]
        exact ⟨d, hdd, hds⟩
      apply ih
      · intro hmem
        rcases List.mem_append.mp hmem with h1 | h1
        · exact his h1
        · rw [List.mem_singleton] at h1
          exact hij h1.symm
      · refine ⟨d, hdd, ?_, fun hdph' => hdph (List.mem_cons_of_mem j hdph')⟩
        intro hmem
        rcases List.mem_append.mp hmem with h1 | h1
        · exact hds h1
        · rw [List.mem_singleton] at h1
          exact hdph (h1 ▸ List.mem_cons_self j ph)
    · rw [if_neg hj]
      apply ih his
      exact ⟨d, hdd, hds, fun hdph' => hdph (List.mem_cons_of_mem j hdph')⟩

theorem phaseSuccessLoop_stable {ph : List Nat} :
    ∀ {s : List Nat}, (∀ i ∈ ph, ∃ d ∈ deps i, d ∉ s ∧ d ∉ ph) →
      phaseSuccessLoop deps okO ph s = s := by
  induction ph with
  | nil => intro s _; rfl
  | cons j ph ih =>
    intro s hall
    rw [phaseSuccessLoop_cons]
    obtain ⟨d, hdd, hds, _⟩ := hall j (List.mem_cons_self j ph)
    rw [if_neg (by intro hj; exact hj.1 ⟨d, hdd, hds⟩)]
    apply ih
    intro i hi
    obtain ⟨d', hdd', hds', hdph'⟩ := hall i (List.mem_cons_of_mem j hi)
    exact ⟨d', hdd', hds', fun h => hdph' (List.mem_cons_of_mem j h)⟩

theorem phaseDispatch_all_failed {s ph : List Nat}
    (hall : ∀ i ∈ ph, hasFailedDeps deps s i) :
    phaseDispatch deps groups s ph = [] := by
  unfold phaseDispatch
  rw [List.flatMap_eq_nil_iff]
  intro i hi
  rw [if_pos (hall i hi)]

theorem runPhasesFrom_length {phs : List (List Nat)} :
    ∀ {k : Nat} {s : List Nat},
      (runPhasesFrom deps groups okO errO k s phs).length = phs.length := by
  induction phs with
  | nil => intro k s; rfl
  | cons ph rest ih =>
    intro k s
    simp only [runPhasesFrom, List.length_cons]
    rw [ih]

theorem succBefore_cons {s : List Nat} {lg : PhaseLog} {logs : List PhaseLog} {m : Nat} :
    succBefore s (lg :: logs) (m + 1) = succBefore lg.succAfter logs m := by
  match m with
  | 0 => simp [succBefore, List.getD_cons_zero]
  | m + 1 => simp [succBefore, List.getD_cons_succ]

theorem runPhasesFrom_getD_eq {phs : List (List Nat)} :
    ∀ {k : Nat} {s : List Nat} {m : Nat}, m < phs.length →
      (runPhasesFrom deps groups okO errO k s phs).getD m default =
        runPhaseStep deps groups okO errO (k + m)
          (succBefore s (runPhasesFrom deps groups okO errO k s phs) m)
          (phs.getD m []) := by
  induction phs with
  | nil => intro k s m hm; simp at hm
  | cons ph rest ih =>
    intro k s m hm
    match m with
    | 0 =>
      simp only [runPhasesFrom, List.getD_cons_zero, succBefore, Nat.add_zero]
    | m + 1 =>
      simp only [runPhasesFrom, List.getD_cons_succ]
      rw [List.length_cons, Nat.succ_lt_succ_iff] at hm
      have := ih (k := k + 1)
        (s := (runPhaseStep deps groups okO errO k s ph).succAfter) (m := m) hm
      rw [this]
      have harith : k + 1 + m = k + (m + 1) := by omega
      rw [harith]
      have hsb : succBefore s
          (runPhaseStep deps groups okO errO k s ph ::
            runPhasesFrom deps groups okO errO (k + 1)
              (runPhaseStep deps groups okO errO k s ph).succAfter rest) (m + 1) =
          succBefore (runPhaseStep deps groups okO errO k s ph).succAfter
            (runPhasesFrom deps groups okO errO (k + 1)
              (runPhaseStep deps groups okO errO k s ph).succAfter rest) m :=
        succBefore_cons
      rw [hsb]

theorem runPhasesFrom_notin_succ {phs : List (List Nat)} :
    ∀ {k : Nat} {s : List Nat} {i : Nat}, i ∉ s → (∀ ph ∈ phs, i ∉ ph) →
      ∀ lg ∈ runPhasesFrom deps groups okO errO k s phs, i ∉ lg.succAfter := by
  induction phs with
  | nil => intro k s i _ _ lg hlg; simp [runPhasesFrom] at hlg
  | cons ph rest ih =>
    intro k s i his hphs lg hlg
    have hstep : i ∉ (runPhaseStep deps groups okO errO k s ph).succAfter := by
      simp only [runPhaseStep]
      by_cases hw : (decide (phaseDispatch deps groups s ph ≠ []) && errO k) = true
      · rw [if_pos hw]
        exact his
      · rw [if_neg hw]
        intro hmem
        rcases phaseSuccessLoop_subset hmem with h1 | h1
        · exact his h1
        · exact hphs ph (List.mem_cons_self ph rest) h1
    simp only [runPhasesFrom, List.mem_cons] at hlg
    rcases hlg with hlg | hlg
    · rw [hlg]
      exact hstep
    · exact ih hstep (fun ph' hph' => hphs ph' (List.mem_cons_of_mem ph hph')) lg hlg

end RunTask

theorem phaseLog_default_eq : (default : PhaseLog) = ⟨[], [], false, false, []⟩ := rfl

section RunTask2

variable {deps : Nat → List Nat} {groups : Nat → List (List Nat)} {okO errO : Nat → Bool}

theorem runPhaseStep_dispatched {k : Nat} {s ph : List Nat} :
    (runPhaseStep deps groups okO errO k s ph).dispatched =
      phaseDispatch deps groups s ph := rfl

theorem runPhaseStep_skipped {k : Nat} {s ph : List Nat} :
    (runPhaseStep deps groups okO errO k s ph).skipped =
      phaseSkipped deps groups s ph := rfl

theorem runPhaseStep_ran {k : Nat} {s ph : List Nat} :
    (runPhaseStep deps groups okO errO k s ph).ran =
      decide (phaseDispatch deps groups s ph ≠ []) := rfl

theorem runPhaseStep_workerErrors {k : Nat} {s ph : List Nat} :
    (runPhaseStep deps groups okO errO k s ph).workerErrors =
      (decide (phaseDispatch deps groups s ph ≠ []) && errO k) := rfl

theorem runPhaseStep_succAfter {k : Nat} {s ph : List Nat} :
    (runPhaseStep deps groups okO errO k s ph).succAfter =
      if (decide (phaseDispatch deps groups s ph ≠ []) && errO k) = true then s
      else phaseSuccessLoop deps okO ph s := rfl

theorem runPhaseStep_succAfter_subset {k : Nat} {s ph : List Nat} {x : Nat}
    (h : x ∈ (runPhaseStep deps groups okO errO k s ph).succAfter) :
    x ∈ s ∨ x ∈ ph := by
  rw [runPhaseStep_succAfter] at h
  by_cases hw : (decide (phaseDispatch deps groups s ph ≠ []) && errO k) = true
  · rw [if_pos hw] at h
    exact Or.inl h
  · rw [if_neg hw] at h
    exact phaseSuccessLoop_subset h

/-- If every project of every phase of a suffix has, via the phase chain, a
dependency outside the successful set and outside its own phase, the whole
suffix dispatches nothing, reports no worker errors and leaves the
successful set unchanged. -/
theorem runPhasesFrom_all_skipped :
    ∀ {phs : List (List Nat)} {k : Nat} {s : List Nat},
      (∀ i ∈ phs.getD 0 [], ∃ d ∈ deps i, d ∉ s ∧ d ∉ phs.getD 0 []) →
      (∀ m i, i ∈ phs.getD (m + 1) [] → ∃ d ∈ deps i, d ∈ phs.getD m []) →
      (∀ m, ∀ x ∈ s, x ∉ phs.getD m []) →
      (∀ m m', m < m' → ∀ x ∈ phs.getD m [], x ∉ phs.getD m' []) →
      ∀ lg ∈ runPhasesFrom deps groups okO errO k s phs,
        lg.dispatched = [] ∧ lg.ran = false ∧ lg.workerErrors = false ∧
          lg.succAfter = s := by
  intro phs
  induction phs with
  | nil => intro k s _ _ _ _ lg hlg; simp [runPhasesFrom] at hlg
  | cons ph rest ih =>
    intro k s hfail hchain hdisjs hdisj lg hlg
    simp only [List.getD_cons_zero] at hfail
    have hallfailed : ∀ i ∈ ph, hasFailedDeps deps s i := by
      intro i hi
      obtain ⟨d, hdd, hds, _⟩ := hfail i hi
      exact ⟨d, hdd, hds⟩
    have hdisp : phaseDispatch deps groups s ph = [] :=
      phaseDispatch_all_failed hallfailed
    have hran : (runPhaseStep deps groups okO errO k s ph).ran = false := by
      rw [runPhaseStep_ran, hdisp]
      simp
    have hwerr : (runPhaseStep deps groups okO errO k s ph).workerErrors = false := by
      rw [runPhaseStep_workerErrors, hdisp]
      simp
    have hsucc : (runPhaseStep deps groups okO errO k s ph).succAfter = s := by
      rw [runPhaseStep_succAfter, hdisp]
      rw [if_neg (by simp)]
      exact phaseSuccessLoop_stable hfail
    simp only [runPhasesFrom, List.mem_cons] at hlg
    rcases hlg with hlg | hlg
    · rw [hlg]
      exact ⟨by rw [runPhaseStep_dispatched, hdisp], hran, hwerr, hsucc⟩
    · rw [hsucc] at hlg
      refine ih ?_ ?_ ?_ ?_ lg hlg
      · intro i hi
        have hi1 : i ∈ (ph :: rest).getD 1 [] := by
          rw [List.getD_cons_succ]; exact hi
        obtain ⟨d, hdd, hdph⟩ := hchain 0 i hi1
        rw [List.getD_cons_zero] at hdph
        refine ⟨d, hdd, fun hds => hdisjs 0 d hds (by rw [List.getD_cons_zero]; exact hdph), ?_⟩
        intro hdr
        exact hdisj 0 1 Nat.zero_lt_one d (by rw [List.getD_cons_zero]; exact hdph)
          (by rw [List.getD_cons_succ]; exact hdr)
      · intro m i hi
        have := hchain (m + 1) i (by rw [List.getD_cons_succ]; exact hi)
        simpa [List.getD_cons_succ] using this
      · intro m x hx
        have := hdisjs (m + 1) x hx
        simpa [List.getD_cons_succ] using this
      · intro m m' hmm' x hx
        have := hdisj (m + 1) (m' + 1) (Nat.succ_lt_succ hmm') x
          (by rw [List.getD_cons_succ]; exact hx)
        simpa [List.getD_cons_succ] using this

/-- After a phase whose dispatcher reported worker errors, every later
phase dispatches nothing: its projects all have a dependency in the
directly preceding phase that never joined the successful set. -/
theorem runPhasesFrom_halt :
    ∀ {phs : List (List Nat)} {k : Nat} {s : List Nat},
      (∀ m i, i ∈ phs.getD (m + 1) [] → ∃ d ∈ deps i, d ∈ phs.getD m []) →
      (∀ m, ∀ x ∈ s, x ∉ phs.getD m []) →
      (∀ m m', m < m' → ∀ x ∈ phs.getD m [], x ∉ phs.getD m' []) →
      ∀ a b, a < b →
        ((runPhasesFrom deps groups okO errO k s phs).getD a default).workerErrors = true →
        ((runPhasesFrom deps groups okO errO k s phs).getD b default).dispatched = [] ∧
          ((runPhasesFrom deps groups okO errO k s phs).getD b default).ran = false := by
  intro phs
  induction phs with
  | nil =>
    intro k s _ _ _ a b _ hw
    exfalso
    simp only [runPhasesFrom, List.getD, List.getElem?_nil, Option.getD_none,
      phaseLog_default_eq] at hw
    exact Bool.false_ne_true hw
  | cons ph rest ih =>
    intro k s hchain hdisjs hdisj a b hab hw
    match a, b, hab with
    | 0, b + 1, _ =>
      simp only [runPhasesFrom, List.getD_cons_zero] at hw
      have hsucc : (runPhaseStep deps groups okO errO k s ph).succAfter = s := by
        rw [runPhaseStep_succAfter]
        rw [runPhaseStep_workerErrors] at hw
        rw [if_pos hw]
      simp only [runPhasesFrom, List.getD_cons_succ, hsucc]
      have hall := @runPhasesFrom_all_skipped deps groups okO errO rest (k + 1) s
        ?_ ?_ ?_ ?_
      · constructor
        · exact getD_prop (fun lg hlg => (hall lg hlg).1) (by rw [phaseLog_default_eq])
        · exact getD_prop (fun lg hlg => (hall lg hlg).2.1) (by rw [phaseLog_default_eq])
      · intro i hi
        have hi1 : i ∈ (ph :: rest).getD 1 [] := by
          rw [List.getD_cons_succ]; exact hi
        obtain ⟨d, hdd, hdph⟩ := hchain 0 i hi1
        rw [List.getD_cons_zero] at hdph
        refine ⟨d, hdd, fun hds => hdisjs 0 d hds (by rw [List.getD_cons_zero]; exact hdph), ?_⟩
        intro hdr
        exact hdisj 0 1 Nat.zero_lt_one d (by rw [List.getD_cons_zero]; exact hdph)
          (by rw [List.getD_cons_succ]; exact hdr)
      · intro m i hi
        have := hchain (m + 1) i (by rw [List.getD_cons_succ]; exact hi)
        simpa [List.getD_cons_succ] using this
      · intro m x hx
        have := hdisjs (m + 1) x hx
        simpa [List.getD_cons_succ] using this
      · intro m m' hmm' x hx
        have := hdisj (m + 1) (m' + 1) (Nat.succ_lt_succ hmm') x
          (by rw [List.getD_cons_succ]; exact hx)
        simpa [List.getD_cons_succ] using this
    | a + 1, b + 1, hab2 =>
      simp only [runPhasesFrom, List.getD_cons_succ] at hw ⊢
      refine ih ?_ ?_ ?_ a b (Nat.lt_of_succ_lt_succ hab2) hw
      · intro m i hi
        have := hchain (m + 1) i (by rw [List.getD_cons_succ]; exact hi)
        simpa [List.getD_cons_succ] using this
      · intro m x hx
        rcases runPhaseStep_succAfter_subset hx with h1 | h1
        · have := hdisjs (m + 1) x h1
          simpa [List.getD_cons_succ] using this
        · have := hdisj 0 (m + 1) (Nat.succ_pos m) x
            (by rw [List.getD_cons_zero]; exact h1)
          simpa [List.getD_cons_succ] using this
      · intro m m' hmm' x hx
        have := hdisj (m + 1) (m' + 1) (Nat.succ_lt_succ hmm') x
          (by rw [List.getD_cons_succ]; exact hx)
        simpa [List.getD_cons_succ] using this

end RunTask2

section RunTask3

variable {deps : Nat → List Nat} {groups : Nat → List (List Nat)} {okO errO : Nat → Bool}

/-- A project of phase `kk` whose failed-dependency check succeeded against
the successful set the phase-`kk` iteration reads never enters the
successful set: the missing dependency is outside the project's own phase
and the success loop only grows the set with same-phase projects. -/
theorem runPhasesFrom_never_added :
    ∀ {phs : List (List Nat)} {k : Nat} {s : List Nat} {kk i : Nat},
      i ∈ phs.getD kk [] → i ∉ s →
      (∀ m, m ≠ kk → i ∉ phs.getD m []) →
      (∃ d ∈ deps i,
        d ∉ succBefore s (runPhasesFrom deps groups okO errO k s phs) kk ∧
          d ∉ phs.getD kk []) →
      ∀ lg ∈ runPhasesFrom deps groups okO errO k s phs, i ∉ lg.succAfter := by
  intro phs
  induction phs with
  | nil => intro k s kk i _ _ _ _ lg hlg; simp [runPhasesFrom] at hlg
  | cons ph rest ih =>
    intro k s kk i hikk his hother hd lg hlg
    simp only [runPhasesFrom, List.mem_cons] at hlg
    match kk with
    | 0 =>
      rw [List.getD_cons_zero] at hikk
      obtain ⟨d, hdd, hdsb, hdph⟩ := hd
      simp only [succBefore] at hdsb
      rw [List.getD_cons_zero] at hdph
      have hstep : i ∉ (runPhaseStep deps groups okO errO k s ph).succAfter := by
        rw [runPhaseStep_succAfter]
        by_cases hw : (decide (phaseDispatch deps groups s ph ≠ []) && errO k) = true
        · rw [if_pos hw]
          exact his
        · rw [if_neg hw]
          exact phaseSuccessLoop_not_added his ⟨d, hdd, hdsb, hdph⟩
      rcases hlg with hlg | hlg
      · rw [hlg]
        exact hstep
      · refine runPhasesFrom_notin_succ hstep ?_ lg hlg
        intro ph' hph'
        obtain ⟨m, hm, hget⟩ := List.mem_iff_getElem.mp hph'
        intro hmem
        refine hother (m + 1) (Nat.succ_ne_zero m) ?_
        rw [List.getD_cons_succ, List.getD_eq_getElem _ _ hm, hget]
        exact hmem
    | kk + 1 =>
      rw [List.getD_cons_succ] at hikk
      have hstep : i ∉ (runPhaseStep deps groups okO errO k s ph).succAfter := by
        intro hmem
        rcases runPhaseStep_succAfter_subset hmem with h1 | h1
        · exact his h1
        · exact hother 0 (Nat.succ_ne_zero kk).symm (by rw [List.getD_cons_zero]; exact h1) 
      rcases hlg with hlg | hlg
      · rw [hlg]
        exact hstep
      · refine ih hikk hstep ?_ ?_ lg hlg
        · intro m hm
          have := hother (m + 1) (fun hc => hm (Nat.succ_injective hc))
          simpa [List.getD_cons_succ] using this
        · obtain ⟨d, hdd, hdsb, hdph⟩ := hd
          refine ⟨d, hdd, ?_, by rw [List.getD_cons_succ] at hdph; exact hdph⟩
          simp only [runPhasesFrom] at hdsb
          rw [succBefore_cons] at hdsb
          exact hdsb

end RunTask3

/-- C4: in `createRunTestsTask`, once the phase-`j` dispatcher reports
`hasWorkerErrors()` true, no later phase dispatches: for every project and
group configuration and every pattern of worker errors, `dispatcher.run` is
not invoked for any phase after `j`. The source loop has no break; the halt
is a consequence of the earliest-phase structure of `buildPhases` (every
later-phase project has a dependency in the directly preceding phase, which
cannot have joined the successful set once the worker broke). -/
theorem createRunTestsTask_halts_after_worker_error (n : Nat)
    (deps : Nat → List Nat) (groups : Nat → List (List Nat))
    (okO errO : Nat → Bool) (j k : Nat) (hjk : j < k)
    (hw : ((createRunTestsTask n deps groups okO errO).getD j default).workerErrors = true) :
    ((createRunTestsTask n deps groups okO errO).getD k default).dispatched = [] ∧
      ((createRunTestsTask n deps groups okO errO).getD k default).ran = false := by
  refine runPhasesFrom_halt ?_ ?_ ?_ j k hjk hw
  · intro m i hi
    exact buildPhasesAux_chain hi
  · intro m x hx
    exact absurd hx (List.not_mem_nil x)
  · intro m m' hmm' x hx hx'
    exact buildPhases_disjoint hmm' hx hx'

/-- Witness for C4: with `A, B→[A], C→[A]`, one group each, and a worker
error reported for phase 0, phase 1 dispatches nothing. -/
theorem createRunTestsTask_halts_witness :
    ((0 : Nat) < 1 ∧
      ((createRunTestsTask 3 exDeps3 exGroups3 (fun _ => true) (fun _ => true)).getD
        0 default).workerErrors = true) ∧
    ((createRunTestsTask 3 exDeps3 exGroups3 (fun _ => true) (fun _ => true)).getD
        1 default).dispatched = [] ∧
      ((createRunTestsTask 3 exDeps3 exGroups3 (fun _ => true) (fun _ => true)).getD
        1 default).ran = false :=
  ⟨⟨Nat.zero_lt_one, by decide⟩,
    createRunTestsTask_halts_after_worker_error 3 exDeps3 exGroups3
      (fun _ => true) (fun _ => true) 0 1 Nat.zero_lt_one (by decide)⟩

/-- C1: in `createRunTestsTask`, a project `i` of phase `kk` whose
dependency list contains a project outside the successful set accumulated
when phase `kk` starts (1) has every test of every one of its groups given
a `skipped` result, (2) contributes none of its groups to the batch passed
to `dispatcher.run`, and (3) never joins the successful set in any phase. -/
theorem createRunTestsTask_skips_failed_deps (n : Nat)
    (deps : Nat → List Nat) (groups : Nat → List (List Nat))
    (okO errO : Nat → Bool) (kk i : Nat)
    (hikk : i ∈ (buildPhases n deps).getD kk [])
    (hfd : hasFailedDeps deps
      (succBefore [] (createRunTestsTask n deps groups okO errO) kk) i) :
    (∀ g ∈ groups i, ∀ t ∈ g,
      (i, t) ∈ ((createRunTestsTask n deps groups okO errO).getD kk default).skipped) ∧
    (∀ pr ∈ ((createRunTestsTask n deps groups okO errO).getD kk default).dispatched,
      pr.1 ≠ i) ∧
    (∀ lg ∈ createRunTestsTask n deps groups okO errO, i ∉ lg.succAfter) := by
  have hkklen : kk < (buildPhases n deps).length := mem_getD_lt hikk
  have hgetD := @runPhasesFrom_getD_eq deps groups okO errO (buildPhases n deps)
    0 [] kk hkklen
  refine ⟨?_, ?_, ?_⟩
  · intro g hg t ht
    unfold createRunTestsTask
    unfold createRunTestsTask at hgetD hfd
    rw [hgetD, runPhaseStep_skipped]
    unfold phaseSkipped
    rw [List.mem_flatMap]
    refine ⟨i, hikk, ?_⟩
    rw [if_pos hfd, List.mem_flatMap]
    refine ⟨g, hg, ?_⟩
    exact List.mem_map.mpr ⟨t, ht, rfl⟩
  · intro pr hpr
    unfold createRunTestsTask at hgetD hfd hpr
    rw [hgetD, runPhaseStep_dispatched] at hpr
    unfold phaseDispatch at hpr
    rw [List.mem_flatMap] at hpr
    obtain ⟨a, ha, hpra⟩ := hpr
    by_cases hfa : hasFailedDeps deps
        (succBefore [] (runPhasesFrom deps groups okO errO 0 [] (buildPhases n deps)) kk) a
    · rw [if_pos hfa] at hpra
      exact absurd hpra (List.not_mem_nil pr)
    · rw [if_neg hfa] at hpra
      obtain ⟨g, _, hpr1⟩ := List.mem_map.mp hpra
      intro hpi
      apply hfa
      have : pr.1 = a := by rw [← hpr1]
      rw [← this, hpi]
      exact hfd
  · have hother : ∀ m, m ≠ kk → i ∉ (buildPhases n deps).getD m [] := by
      intro m hm hmem
      rcases Nat.lt_or_ge m kk with h1 | h1
      · exact buildPhases_disjoint h1 hmem hikk
      · exact buildPhases_disjoint (Nat.lt_of_le_of_ne h1 (fun hc => hm hc.symm)) hikk hmem
    obtain ⟨d, hdd, hdsb⟩ := hfd
    have hdph : d ∉ (buildPhases n deps).getD kk [] := by
      intro hdk
      obtain ⟨j, hj, hdj⟩ := buildPhases_deps_earlier hikk d hdd
      exact buildPhases_disjoint hj hdj hdk
    exact runPhasesFrom_never_added hikk (List.not_mem_nil i) hother
      ⟨d, hdd, hdsb, hdph⟩

/-- Witness for C1: with `A, B→[A], C→[A]`, project `A` failing its test
(`okO 0 = false`), project 1 (`B`) in phase 1 has a failed dependency: its
test 11 is skipped, nothing of project 1 is dispatched in phase 1, and
project 1 never joins the successful set. -/
theorem createRunTestsTask_skips_witness :
    (1 ∈ (buildPhases 3 exDeps3).getD 1 [] ∧
      hasFailedDeps exDeps3
        (succBefore [] (createRunTestsTask 3 exDeps3 exGroups3 (fun _ => false)
          (fun _ => false)) 1) 1) ∧
    ((∀ g ∈ exGroups3 1, ∀ t ∈ g,
      (1, t) ∈ ((createRunTestsTask 3 exDeps3 exGroups3 (fun _ => false)
        (fun _ => false)).getD 1 default).skipped) ∧
    (∀ pr ∈ ((createRunTestsTask 3 exDeps3 exGroups3 (fun _ => false)
        (fun _ => false)).getD 1 default).dispatched, pr.1 ≠ 1) ∧
    (∀ lg ∈ createRunTestsTask 3 exDeps3 exGroups3 (fun _ => false) (fun _ => false),
      1 ∉ lg.succAfter)) :=
  ⟨⟨by decide, by decide⟩,
    createRunTestsTask_skips_failed_deps 3 exDeps3 exGroups3 (fun _ => false)
      (fun _ => false) 1 1 (by decide) (by decide)⟩

/-- C6: the load task fails with `No tests found` exactly when the loaded
root suite contains zero tests, `passWithNoTests` is not set and the run is
not sharded; with at least one test, or a tolerant configuration, the check
passes. -/
theorem createLoadTask_no_tests_iff (n : Nat) (p s : Bool) :
    createLoadTask n p s = .error "No tests found" ↔
      n = 0 ∧ p = false ∧ s = false := by
  unfold createLoadTask
  constructor
  · intro h
    by_cases hc : (n == 0 && !p && !s) = true
    · simp only [Bool.and_eq_true, beq_iff_eq, Bool.not_eq_true'] at hc
      exact ⟨hc.1.1, hc.1.2, hc.2⟩
    · rw [if_neg hc] at h
      exact absurd h (by simp)
  · rintro ⟨h1, h2, h3⟩
    subst h1
    subst h2
    subst h3
    rfl

theorem lookup_mem {c : List (Nat × FileSuite)} {f : Nat} {s : FileSuite}
    (h : c.lookup f = some s) : (f, s) ∈ c := by
  induction c with
  | nil => simp [List.lookup] at h
  | cons pr rest ih =>
    rw [List.lookup_cons] at h
    cases hf : (f == pr.1) with
    | true =>
      rw [hf] at h
      have h2 : pr.2 = s := Option.some_inj.mp h
      rw [beq_iff_eq] at hf
      rw [hf, ← h2]
      exact List.mem_cons_self pr rest
    | false =>
      rw [hf] at h
      exact List.mem_cons_of_mem pr (ih h)

/-- In the worker environment a failing `requireOrImport` is rethrown. -/
theorem loadTestFile_worker_rethrows (req : Nat → List Nat × Option String)
    (c : List (Nat × FileSuite)) (es : List String) (f : Nat) (e : String)
    (hc : c.lookup f = none) (hre : (req f).2 = some e) :
    loadTestFile req .worker c es f = .error e := by
  unfold loadTestFile
  rw [hc, hre]

/-- Invariant spec of the `loadTestFilesInProcess` loop: it never fails,
produces one file suite per listed file in order, only appends to the error
sink, keeps the cache well-keyed, and records the error of every file whose
`requireOrImport` throws (such files are never cached, so every occurrence
re-attempts and records). -/
theorem loadFilesAux_spec (req : Nat → List Nat × Option String) :
    ∀ (fs : List Nat) (c : List (Nat × FileSuite)) (es : List String)
      (acc : List FileSuite),
      (∀ pr ∈ c, (pr.2).file = pr.1) →
      ∃ c2 es2 suites2,
        loadFilesAux req fs c es acc = .ok (c2, es2, suites2) ∧
        (∃ ns, suites2 = acc ++ ns ∧ ns.map (fun fsu => fsu.file) = fs) ∧
        (∃ tail, es2 = es ++ tail) ∧
        (∀ pr ∈ c2, (pr.2).file = pr.1) ∧
        (∀ f ∈ fs, ∀ e, (req f).2 = some e → c.lookup f = none → e ∈ es2) := by
  intro fs
  induction fs with
  | nil =>
    intro c es acc hwf
    refine ⟨c, es, acc, rfl, ⟨[], by rw [List.append_nil], rfl⟩,
      ⟨[], by rw [List.append_nil]⟩, hwf, ?_⟩
    intro f hf
    exact absurd hf (List.not_mem_nil f)
  | cons f0 rest ih =>
    intro c es acc hwf
    cases hc : c.lookup f0 with
    | some suite =>
      obtain ⟨c2, es2, suites2, heq, ⟨ns, hns, hmap⟩, ⟨tail, htail⟩, hwf2, herr⟩ :=
        ih c es (acc ++ [suite]) hwf
      refine ⟨c2, es2, suites2, ?_, ⟨suite :: ns, ?_, ?_⟩, ⟨tail, htail⟩, hwf2, ?_⟩
      · simp only [loadFilesAux, loadTestFile, hc]
        exact heq
      · rw [hns, List.append_assoc, List.singleton_append]
      · rw [List.map_cons, hmap]
        have hsf : suite.file = f0 := hwf (f0, suite) (lookup_mem hc)
        rw [hsf]
      · intro f hf e hre hcf
        rcases List.mem_cons.mp hf with hf | hf
        · rw [hf] at hcf
          rw [hcf] at hc
          exact absurd hc (by simp)
        · exact herr f hf e hre hcf
    | none =>
      cases hre : (req f0).2 with
      | none =>
        have hwf' : ∀ pr ∈ (f0, (⟨f0, (req f0).1⟩ : FileSuite)) :: c,
            (pr.2).file = pr.1 := by
          intro pr hpr
          rcases List.mem_cons.mp hpr with hpr | hpr
          · rw [hpr]
          · exact hwf pr hpr
        obtain ⟨c2, es2, suites2, heq, ⟨ns, hns, hmap⟩, ⟨tail, htail⟩, hwf2, herr⟩ :=
          ih ((f0, ⟨f0, (req f0).1⟩) :: c) es (acc ++ [⟨f0, (req f0).1⟩]) hwf'
        refine ⟨c2, es2, suites2, ?_, ⟨(⟨f0, (req f0).1⟩ : FileSuite) :: ns, ?_, ?_⟩,
          ⟨tail, htail⟩, hwf2, ?_⟩
        · simp only [loadFilesAux, loadTestFile, hc, hre]
          exact heq
        · rw [hns, List.append_assoc, List.singleton_append]
        · rw [List.map_cons, hmap]
        · intro f hf e hre2 hcf
          rcases List.mem_cons.mp hf with hf | hf
          · rw [hf] at hre2
            rw [hre2] at hre
            exact absurd hre (by simp)
          · refine herr f hf e hre2 ?_
            rw [List.lookup_cons]
            have hff0 : (f == f0) = false := by
              rw [beq_eq_false_iff_ne]
              intro hfe
              rw [hfe] at hre2
              rw [hre2] at hre
              exact absurd hre (by simp)
            rw [hff0]
            simp only [Bool.false_eq_true, if_false]
            exact hcf
      | some e0 =>
        obtain ⟨c2, es2, suites2, heq, ⟨ns, hns, hmap⟩, ⟨tail, htail⟩, hwf2, herr⟩ :=
          ih c (es ++ [e0]) (acc ++ [⟨f0, (req f0).1⟩]) hwf
        refine ⟨c2, es2, suites2, ?_, ⟨(⟨f0, (req f0).1⟩ : FileSuite) :: ns, ?_, ?_⟩,
          ⟨[e0] ++ tail, by rw [htail, List.append_assoc]⟩, hwf2, ?_⟩
        · simp only [loadFilesAux, loadTestFile, hc, hre]
          exact heq
        · rw [hns, List.append_assoc, List.singleton_append]
        · rw [List.map_cons, hmap]
        · intro f hf e hre2 hcf
          rcases List.mem_cons.mp hf with hf | hf
          · have he : e = e0 := by
              rw [hf] at hre2
              rw [hre2] at hre
              exact Option.some_inj.mp hre
            rw [htail, he]
            rw [List.append_assoc]
            apply List.mem_append.mpr
            right
            apply List.mem_append.mpr
            left
            exact List.mem_singleton.mpr rfl
          · exact herr f hf e hre2 hcf

/-- C7: loading a list of files in the loader environment never aborts — a
file whose `requireOrImport` throws has its error recorded and every other
file's suite is still loaded and added to the root suite, one per file in
order — while the worker environment rethrows the same error. -/
theorem loadTestFilesInProcess_isolates_errors
    (req : Nat → List Nat × Option String) (c : List (Nat × FileSuite))
    (files : List Nat) (hwf : ∀ pr ∈ c, (pr.2).file = pr.1) :
    (∃ c2 es suites,
      loadTestFilesInProcess req c files = .ok (c2, es, suites) ∧
      suites.map (fun fsu => fsu.file) = files ∧
      ∀ f ∈ files, ∀ e, (req f).2 = some e → c.lookup f = none → e ∈ es) ∧
    (∀ es2 f e, c.lookup f = none → (req f).2 = some e →
      loadTestFile req .worker c es2 f = .error e) := by
  constructor
  · obtain ⟨c2, es2, suites2, heq, ⟨ns, hns, hmap⟩, _, _, herr⟩ :=
      loadFilesAux_spec req files c [] [] hwf
    refine ⟨c2, es2, suites2, heq, ?_, herr⟩
    rw [hns, List.nil_append]
    exact hmap
  · intro es2 f e hcf hre
    exact loadTestFile_worker_rethrows req c es2 f e hcf hre

/-- Witness for C7: three files, the middle one throwing `boom`; both other
files' suites load, the error is recorded, and a worker-environment load of
the throwing file rethrows. -/
theorem loadTestFilesInProcess_witness :
    (∀ pr ∈ ([] : List (Nat × FileSuite)), (pr.2).file = pr.1) ∧
    ((∃ c2 es suites,
      loadTestFilesInProcess
        (fun f => if f == 1 then ([], some "boom") else ([f + 100], none))
        [] [0, 1, 2] = .ok (c2, es, suites) ∧
      suites.map (fun fsu => fsu.file) = [0, 1, 2] ∧
      ∀ f ∈ [0, 1, 2], ∀ e,
        ((fun f => if f == 1 then ([], some "boom") else ([f + 100], none)) f).2 =
          some e →
        ([] : List (Nat × FileSuite)).lookup f = none → e ∈ es) ∧
    (∀ es2 f e, ([] : List (Nat × FileSuite)).lookup f = none →
      ((fun f => if f == 1 then ([], some "boom") else ([f + 100], none)) f).2 =
        some e →
      loadTestFile (fun f => if f == 1 then ([], some "boom") else ([f + 100], none))
        .worker [] es2 f = .error e)) :=
  ⟨by decide,
    loadTestFilesInProcess_isolates_errors
      (fun f => if f == 1 then ([], some "boom") else ([f + 100], none))
      [] [0, 1, 2] (by decide)⟩

/-- C9: `loadTestFile` is idempotent per file via the global
`cachedFileSuites` cache — a cache hit returns the cached suite without
executing the file; a successful load caches the suite so a second call
returns the identical suite without executing — while a load that threw is
not cached, leaving the cache unchanged, so a subsequent call executes the
file again. -/
theorem loadTestFile_cache_semantics (req : Nat → List Nat × Option String)
    (c : List (Nat × FileSuite)) (es : List String) (f : Nat) :
    (∀ s env, c.lookup f = some s →
      loadTestFile req env c es f = .ok ⟨c, es, false, s⟩) ∧
    ((req f).2 = none → c.lookup f = none →
      (loadTestFile req .loader c es f =
        .ok ⟨(f, ⟨f, (req f).1⟩) :: c, es, true, ⟨f, (req f).1⟩⟩ ∧
      ∀ es2, loadTestFile req .loader ((f, ⟨f, (req f).1⟩) :: c) es2 f =
        .ok ⟨(f, ⟨f, (req f).1⟩) :: c, es2, false, ⟨f, (req f).1⟩⟩)) ∧
    (∀ e, (req f).2 = some e → c.lookup f = none →
      (loadTestFile req .loader c es f = .ok ⟨c, es ++ [e], true, ⟨f, (req f).1⟩⟩ ∧
      loadTestFile req .loader c (es ++ [e]) f =
        .ok ⟨c, es ++ [e] ++ [e], true, ⟨f, (req f).1⟩⟩)) := by
  refine ⟨?_, ?_, ?_⟩
  · intro s env h
    unfold loadTestFile
    rw [h]
  · intro h1 h2
    constructor
    · unfold loadTestFile
      rw [h2, h1]
    · intro es2
      have hl : ((f, (⟨f, (req f).1⟩ : FileSuite)) :: c).lookup f =
          some ⟨f, (req f).1⟩ := by
        rw [List.lookup_cons]
        simp
      unfold loadTestFile
      rw [hl]
  · intro e h1 h2
    constructor
    · unfold loadTestFile
      rw [h2, h1]
    · unfold loadTestFile
      rw [h2, h1]

/-- Witness for C9 at a concrete request function: file 7 loads tests
`[1, 2]` successfully, file 3 throws `bad`. -/
theorem loadTestFile_cache_witness :
    (((fun f => if f == 7 then (([1, 2] : List Nat), (none : Option String))
        else ([], some "bad")) 7).2 = none ∧
      ([] : List (Nat × FileSuite)).lookup 7 = none) ∧
    (loadTestFile
        (fun f => if f == 7 then (([1, 2] : List Nat), (none : Option String))
          else ([], some "bad")) .loader [] [] 7 =
      .ok ⟨[(7, ⟨7, [1, 2]⟩)], [], true, ⟨7, [1, 2]⟩⟩ ∧
    ∀ es2, loadTestFile
        (fun f => if f == 7 then (([1, 2] : List Nat), (none : Option String))
          else ([], some "bad")) .loader [(7, ⟨7, [1, 2]⟩)] es2 7 =
      .ok ⟨[(7, ⟨7, [1, 2]⟩)], es2, false, ⟨7, [1, 2]⟩⟩) :=
  ⟨⟨by decide, by decide⟩,
    (loadTestFile_cache_semantics
      (fun f => if f == 7 then (([1, 2] : List Nat), (none : Option String))
        else ([], some "bad")) [] [] 7).2.1 (by decide) (by decide)⟩

theorem muxErrorSeq_foldl_acc :
    ∀ (errs : List String) (s : MuxState) (evts : List RepEvent),
      errs.foldl (fun acc e =>
        let r := muxOnError acc.1 e
        (r.1, acc.2 ++ r.2)) (s, evts) =
      ((muxErrorSeq s errs).1, evts ++ (muxErrorSeq s errs).2) := by
  intro errs
  induction errs with
  | nil => intro s evts; simp [muxErrorSeq]
  | cons e rest ih =>
    intro s evts
    simp only [muxErrorSeq, List.foldl_cons]
    rw [ih, ih]
    simp

theorem muxErrorSeq_cons (s : MuxState) (e : String) (rest : List String) :
    muxErrorSeq s (e :: rest) =
      ((muxErrorSeq (muxOnError s e).1 rest).1,
        (muxOnError s e).2 ++ (muxErrorSeq (muxOnError s e).1 rest).2) := by
  show List.foldl _ (s, []) (e :: rest) = _
  rw [List.foldl_cons]
  dsimp only
  rw [muxErrorSeq_foldl_acc]
  simp

theorem muxErrorSeq_deferred :
    ∀ (errs l : List String) (io : Option (List (Bool × String))),
      muxErrorSeq ⟨some l, io⟩ errs = (⟨some (l ++ errs), io⟩, []) := by
  intro errs
  induction errs with
  | nil => intro l io; simp [muxErrorSeq]
  | cons e rest ih =>
    intro l io
    rw [muxErrorSeq_cons]
    have h1 : muxOnError (⟨some l, io⟩ : MuxState) e = (⟨some (l ++ [e]), io⟩, []) := rfl
    rw [h1, ih]
    simp

theorem muxErrorSeq_live :
    ∀ (errs : List String) (io : Option (List (Bool × String))),
      muxErrorSeq ⟨none, io⟩ errs = (⟨none, io⟩, errs.map RepEvent.error) := by
  intro errs
  induction errs with
  | nil => intro io; simp [muxErrorSeq]
  | cons e rest ih =>
    intro io
    rw [muxErrorSeq_cons]
    have h1 : muxOnError (⟨none, io⟩ : MuxState) e = (⟨none, io⟩, [RepEvent.error e]) := rfl
    rw [h1, ih]
    simp

/-- C5 (amended): however the run goes — errors before the begin step, the
begin step reached or not, errors after — every reporter observes exactly
one `onBegin` and exactly one `onEnd`, the `onEnd` coming from
`Multiplexer.onExit` (with `onBegin` synthesized there when never
explicitly reached), and every buffered error is delivered after `onBegin`
rather than dropped. -/
theorem reporterRun_begin_end_exactly_once (eb : List String) (bc : Bool)
    (ea : List String) :
    reporterRun eb bc ea =
      RepEvent.begin :: ((eb ++ ea).map RepEvent.error ++ [RepEvent.done]) ∧
    (reporterRun eb bc ea).count RepEvent.begin = 1 ∧
    (reporterRun eb bc ea).count RepEvent.done = 1 ∧
    ∀ e, RepEvent.error e ∈ reporterRun eb bc ea ↔ e ∈ eb ++ ea := by
  have hshape : reporterRun eb bc ea =
      RepEvent.begin :: ((eb ++ ea).map RepEvent.error ++ [RepEvent.done]) := by
    cases bc with
    | true =>
      simp [reporterRun, muxErrorSeq_deferred, muxErrorSeq_live, muxOnBegin,
        muxOnEnd, muxOnExit]
    | false =>
      simp [reporterRun, muxErrorSeq_deferred, muxErrorSeq_live, muxOnBegin,
        muxOnEnd, muxOnExit]
  refine ⟨hshape, ?_, ?_, ?_⟩
  · rw [hshape]
    have : List.count RepEvent.begin
        ((eb ++ ea).map RepEvent.error ++ [RepEvent.done]) = 0 := by
      rw [List.count_eq_zero]
      intro hmem
      rcases List.mem_append.mp hmem with h1 | h1
      · obtain ⟨e, _, he⟩ := List.mem_map.mp h1
        exact RepEvent.noConfusion he
      · rw [List.mem_singleton] at h1
        exact RepEvent.noConfusion h1
    rw [List.count_cons_self, this]
  · rw [hshape]
    have : List.count RepEvent.done ((eb ++ ea).map RepEvent.error) = 0 := by
      rw [List.count_eq_zero]
      intro hmem
      obtain ⟨e, _, he⟩ := List.mem_map.mp hmem
      exact RepEvent.noConfusion he
    rw [List.count_cons, List.count_append, this]
    simp
  · intro e
    rw [hshape]
    simp

/-- C5 counterexample: the `report begin` rollback calls
`Multiplexer.onEnd`, which is a no-op — after `onBegin` has run, the
rollback call emits no event to the reporters, and the single end
notification (`.done`) only appears once `onExit` runs. The end
notification is therefore not triggered by the begin step's rollback. -/
theorem muxOnEnd_rollback_emits_nothing :
    (muxOnEnd (muxOnBegin ⟨some [], some []⟩).1).2 = ([] : List RepEvent) ∧
    (muxOnExit (muxOnEnd (muxOnBegin ⟨some [], some []⟩).1).1).2.count
      RepEvent.done = 1 := by
  constructor
  · rfl
  · rfl

theorem broadcastWrappedAux_spec :
    ∀ (cbs : List (Except String Unit)) (k : Nat),
      broadcastWrappedAux k cbs =
        ⟨List.range' k cbs.length, reporterErrors cbs, none⟩ := by
  intro cbs
  induction cbs with
  | nil => intro k; rfl
  | cons cb rest ih =>
    intro k
    simp only [broadcastWrappedAux, ih, List.length_cons]
    rw [List.range'_succ]
    have herr : reporterErrors (cb :: rest) = wrap cb ++ reporterErrors rest := by
      cases cb with
      | ok u => simp [reporterErrors, wrap, List.filterMap_cons]
      | error e => simp [reporterErrors, wrap, List.filterMap_cons]
    rw [herr]

/-- C10: for `onTestBegin`, `onTestEnd`, `onStepBegin`, `onStdOut`,
`onStdErr` and `onError` (outside the deferred phase for the latter
three), every registered reporter is invoked in order, the errors thrown by
reporters are logged, and nothing propagates to the caller — a throwing
reporter does not prevent delivery to the remaining reporters. -/
theorem multiplexer_wrapped_fanout (cbs : List (Except String Unit)) (d : Bool)
    (hd : d = false) :
    Multiplexer.onTestBegin cbs =
      ⟨List.range' 0 cbs.length, reporterErrors cbs, none⟩ ∧
    Multiplexer.onTestEnd cbs =
      ⟨List.range' 0 cbs.length, reporterErrors cbs, none⟩ ∧
    Multiplexer.onStepBegin cbs =
      ⟨List.range' 0 cbs.length, reporterErrors cbs, none⟩ ∧
    Multiplexer.onStdOut d cbs =
      ⟨List.range' 0 cbs.length, reporterErrors cbs, none⟩ ∧
    Multiplexer.onStdErr d cbs =
      ⟨List.range' 0 cbs.length, reporterErrors cbs, none⟩ ∧
    Multiplexer.onError d cbs =
      ⟨List.range' 0 cbs.length, reporterErrors cbs, none⟩ := by
  subst hd
  have h := broadcastWrappedAux_spec cbs 0
  refine ⟨h, h, h, ?_, ?_, ?_⟩ <;>
    simp [Multiplexer.onStdOut, Multiplexer.onStdErr, Multiplexer.onError,
      broadcastWrapped, h]

/-- Witness for C10: three reporters, the middle one throwing `boom`; all
three are invoked, the error is logged, none propagates. -/
theorem multiplexer_wrapped_fanout_witness :
    (false = false) ∧
    (Multiplexer.onTestBegin [.ok (), .error "boom", .ok ()] =
      ⟨List.range' 0 ([Except.ok (), .error "boom", .ok ()] :
        List (Except String Unit)).length,
        reporterErrors [.ok (), .error "boom", .ok ()], none⟩ ∧
    Multiplexer.onTestEnd [.ok (), .error "boom", .ok ()] =
      ⟨List.range' 0 ([Except.ok (), .error "boom", .ok ()] :
        List (Except String Unit)).length,
        reporterErrors [.ok (), .error "boom", .ok ()], none⟩ ∧
    Multiplexer.onStepBegin [.ok (), .error "boom", .ok ()] =
      ⟨List.range' 0 ([Except.ok (), .error "boom", .ok ()] :
        List (Except String Unit)).length,
        reporterErrors [.ok (), .error "boom", .ok ()], none⟩ ∧
    Multiplexer.onStdOut false [.ok (), .error "boom", .ok ()] =
      ⟨List.range' 0 ([Except.ok (), .error "boom", .ok ()] :
        List (Except String Unit)).length,
        reporterErrors [.ok (), .error "boom", .ok ()], none⟩ ∧
    Multiplexer.onStdErr false [.ok (), .error "boom", .ok ()] =
      ⟨List.range' 0 ([Except.ok (), .error "boom", .ok ()] :
        List (Except String Unit)).length,
        reporterErrors [.ok (), .error "boom", .ok ()], none⟩ ∧
    Multiplexer.onError false [.ok (), .error "boom", .ok ()] =
      ⟨List.range' 0 ([Except.ok (), .error "boom", .ok ()] :
        List (Except String Unit)).length,
        reporterErrors [.ok (), .error "boom", .ok ()], none⟩) :=
  ⟨rfl, multiplexer_wrapped_fanout [.ok (), .error "boom", .ok ()] false rfl⟩
